import Mathlib

/-!
Shallow embedding of `mirror-caddy.py`, a tool that mirrors a remote
directory tree exposed by a Caddy file server onto local storage.

The embedding models:
* the metadata sidecar store (`read_metadata` / `save_metadata`),
* the listing fetcher's entry normalization (`_fetch_dir`'s loop),
* recursive tree enumeration (`enumerate_files`), with the remote server
  modelled as an inductive tree of delivered listing responses (per
  directory: a transport error, or a status plus a parseable-or-not
  body, each subdirectory entry carrying its subtree),
* one download step (`download_file`) as an explicit state-passing function
  over a filesystem state, with the HTTP response supplied as an input
  (`none` models a transport error / timeout raised by the client),
* the coordinator tail of `async_main` (tally and exit status).

Concurrency (asyncio gather / semaphore) is modelled by a sequential
interleaving; `asyncio.gather` preserves input order for its result list,
which the sequential model shares.
-/

namespace MirrorCaddy

/-- Python `str.rstrip("/")`: drop all trailing `'/'` characters. -/
def rstripSlash (s : String) : String :=
  String.mk ((s.data.reverse.dropWhile (fun c => c = '/')).reverse)

/-- Python `url_path[2:]` applied when `url_path.startswith("./")`:
strip one leading `"./"` if present, otherwise leave the string alone. -/
def stripDotSlash (s : String) : String :=
  match s.data with
  | '.' :: '/' :: rest => String.mk rest
  | _ => s

/-- Split a character list on a separator character; `[]` yields `[[]]`,
mirroring how a final separator yields a trailing empty field. -/
def splitOnCharList (c : Char) : List Char → List (List Char)
  | [] => [[]]
  | a :: rest =>
    match splitOnCharList c rest with
    | [] => [[]]
    | h :: t => if a = c then [] :: h :: t else (a :: h) :: t

/-- Python `text.splitlines()` for the newline-only texts this program
writes (it only ever reads back files it wrote with `"\n"` terminators);
modelled as splitting on `'\n'`.  The one divergence — `splitlines`
drops a trailing empty field while this keeps it — is invisible to
`read_metadata`, which ignores lines with an empty value. -/
def splitLines (s : String) : List String :=
  (splitOnCharList '\n' s.data).map String.mk

/-- The part of `line.partition("=")` before the first `'='`
(the whole line when there is no `'='`). -/
def partBeforeEq : List Char → List Char
  | [] => []
  | a :: rest => if a = '=' then [] else a :: partBeforeEq rest

/-- The part of `line.partition("=")` after the first `'='`
(empty when there is no `'='`, exactly as the empty third component). -/
def partAfterEq : List Char → List Char
  | [] => []
  | a :: rest => if a = '=' then rest else partAfterEq rest

/-- Python dict assignment `m[k] = v` on an association list:
overwrite the existing binding, else append. -/
def dictSet (m : List (String × String)) (k v : String) : List (String × String) :=
  if m.any (fun p => p.1 = k) then
    m.map (fun p => if p.1 = k then (k, v) else p)
  else
    m ++ [(k, v)]

/-- Python `m.get(k)` on an association list. -/
def dictGet (m : List (String × String)) (k : String) : Option String :=
  (m.find? (fun p => p.1 = k)).map (fun p => p.2)

/-- Remove a key (models `Path.unlink(missing_ok=True)` on a path-keyed map). -/
def dictErase (m : List (String × String)) (k : String) : List (String × String) :=
  m.filter (fun p => p.1 ≠ k)

/-- The body of `read_metadata`'s line loop: `partition` the line at the
first `'='` and keep the binding unless the value is empty or the
literal string `"null"`. -/
def metaLine (meta : List (String × String)) (line : String) : List (String × String) :=
  let k := String.mk (partBeforeEq line.data)
  let v := String.mk (partAfterEq line.data)
  if v ≠ "" ∧ v ≠ "null" then dictSet meta k v else meta

/-- `read_metadata(path)`: parse the sidecar file's text into a dict.
`none` models a missing file (`path.exists()` false ⟶ empty dict). -/
def read_metadata (content : Option String) : List (String × String) :=
  match content with
  | none => []
  | some text => (splitLines text).foldl metaLine []

/-- The exact text `save_metadata(path, etag, last_modified)` writes:
`f"etag={etag}\nlast_modified={last_modified}\n"`. -/
def saveContent (etag last_modified : String) : String :=
  "etag=" ++ etag ++ "\nlast_modified=" ++ last_modified ++ "\n"

/-! ## Listing fetcher (`_fetch_dir`) -/

/-- One raw JSON object from a directory listing.  `name` and `url` are
`Option` because the code reads them with `entry.get("name", "")` /
`entry.get("url", "")` (a missing key falls back to `""`); `is_dir` is
the truthiness of `entry.get("is_dir")`. -/
structure RawEntry where
  name : Option String
  url : Option String
  is_dir : Bool
deriving DecidableEq, Repr

/-- `url = url.rstrip("/") + "/"` at the top of `_fetch_dir`. -/
def normUrl (url : String) : String := rstripSlash url ++ "/"

/-- What one loop iteration of `_fetch_dir` contributes:
nothing (entry discarded), a file `(full_path, full_url)`, or a
subdirectory `(full_url, full_path + "/")`. -/
inductive EntryResult where
  | skip : EntryResult
  | file : String → String → EntryResult
  | dir : String → String → EntryResult
deriving DecidableEq, Repr

/-- The body of `_fetch_dir`'s `for entry in entries` loop, for one entry.
`nurl` is the already-normalized directory URL, `prefix` the accumulated
path prefix. -/
def processEntry (nurl pfx : String) (e : RawEntry) : EntryResult :=
  let name := rstripSlash (e.name.getD "")
  let url_path := stripDotSlash (e.url.getD "")
  if name = "." ∨ name = ".." then .skip
  else
    let full_path := pfx ++ name
    let full_url := nurl ++ url_path
    if e.is_dir then .dir full_url (full_path ++ "/")
    else .file full_path full_url

/-- The whole entry loop of `_fetch_dir`: ordered file and subdirectory
lists for one directory listing. -/
def fetchEntries (nurl pfx : String) : List RawEntry → List (String × String) × List (String × String)
  | [] => ([], [])
  | e :: rest =>
    let tail := fetchEntries nurl pfx rest
    match processEntry nurl pfx e with
    | .skip => tail
    | .file p u => ((p, u) :: tail.1, tail.2)
    | .dir u p => (tail.1, (u, p) :: tail.2)

/-! ## Tree crawler (`enumerate_files`)

The remote server is modelled as a tree of delivered listing responses:
for each directory, the `session.get` inside `_fetch_dir` either raises
a transport error, or delivers a response with some status whose body
either fails to parse as a JSON entry array or parses to raw entries,
each entry carrying the subtree the crawl would reach through it
(unused for non-directory entries).  `_fetch_dir`'s `except` branch
triggers exactly on a transport error, on `resp.raise_for_status()`
(which raises only for a status ≥ 400), or on an unparseable body; a
delivered status below 400 — 2xx or not — with a parseable body is a
successful listing. -/

mutual
inductive RTree where
  /-- `session.get` raises: transport error or timeout. -/
  | err : RTree
  /-- a response with this status is delivered but `resp.json()` raises:
  unparseable body or wrong content type. -/
  | badBody : Nat → RTree
  /-- a response with this status is delivered and its body parses to
  these entries. -/
  | resp : Nat → REntries → RTree
deriving DecidableEq
inductive REntries where
  | nil : REntries
  | cons : RawEntry → RTree → REntries → REntries
deriving DecidableEq
end

/-- Whether `_fetch_dir`'s `except` branch triggers for this directory:
a transport error, `raise_for_status` on a status ≥ 400, or a body that
fails to parse.  A delivered non-2xx status below 400 with a parseable
body does not trigger it. -/
def listingFails : RTree → Bool
  | .err => true
  | .badBody _ => true
  | .resp status _ => 400 ≤ status

mutual
/-- `enumerate_files`' recursive `_process`, returning the accumulated
`(path, url)` file list together with the list of directory URLs for
which a listing diagnostic was emitted.  A directory whose fetch ends in
the `except` branch contributes zero files and zero subdirectories;
siblings are unaffected.  (The live `all_files` order interleaves by
task completion and is not guaranteed; this model fixes one
interleaving.) -/
def enumerate : RTree → String → String → List (String × String) × List String
  | .err, url, _ => ([], [normUrl url])
  | .badBody _, url, _ => ([], [normUrl url])
  | .resp status es, url, pfx =>
    if 400 ≤ status then ([], [normUrl url])
    else enumEntries (normUrl url) pfx es

/-- Process the entries of one successfully listed directory, recursing
into each subdirectory entry's subtree. -/
def enumEntries : String → String → REntries → List (String × String) × List String
  | _, _, .nil => ([], [])
  | nurl, pfx, .cons e sub rest =>
    let tail := enumEntries nurl pfx rest
    match processEntry nurl pfx e with
    | .skip => tail
    | .file p u => ((p, u) :: tail.1, tail.2)
    | .dir u p =>
      let child := enumerate sub u p
      (child.1 ++ tail.1, child.2 ++ tail.2)
end

/-- Whether `_fetch_dir` discards an entry: its slash-stripped name is
`"."` or `".."`. -/
def discarded (e : RawEntry) : Bool :=
  rstripSlash (e.name.getD "") = "." ∨ rstripSlash (e.name.getD "") = ".."

mutual
/-- Specification-side count: the sum, over every successfully listed
directory of the tree, of its direct (non-discarded, non-directory)
entries. -/
def sumSuccess : RTree → Nat
  | .err => 0
  | .badBody _ => 0
  | .resp status es => if 400 ≤ status then 0 else sumEntries es

/-- Entry-list part of `sumSuccess`. -/
def sumEntries : REntries → Nat
  | .nil => 0
  | .cons e sub rest =>
    (if discarded e then 0 else if e.is_dir then sumSuccess sub else 1) + sumEntries rest
end

/-! ## Download pipeline (`download_file`, the semaphore-wrapped `gather`)

Paths are kept relative to `download_dir`; the sidecar map is keyed by
the same relative path (the real store prefixes `metadata_dir` and
appends `".meta"`, a bijective renaming). -/

/-- An HTTP response as `download_file` observes it: the status after the
client followed redirects, the body, and the `ETag` / `Last-Modified`
response headers read with `resp.headers.get(..., "")`. -/
structure HttpResp where
  status : Nat
  body : String
  etag : String
  last_modified : String
deriving DecidableEq, Repr

/-- Local filesystem state touched by the pipeline: directories known to
exist, destination files, leftover `.tmp` artifacts, and the metadata
sidecar contents (keyed by destination path, value = raw sidecar text). -/
structure FsState where
  dirs : List String
  files : List (String × String)
  temps : List (String × String)
  metas : List (String × String)
deriving DecidableEq, Repr

/-- Parent directory of a relative path: everything before the last
`'/'` (`"."` when there is none), as `Path(p).parent`. -/
def parentDir (p : String) : String :=
  let comps := p.splitOn "/"
  if comps.length ≤ 1 then "." else String.intercalate "/" (comps.dropLast)

/-- `local_file.parent.mkdir(parents=True, exist_ok=True)`.  An entry in
`dirs` stands for a directory that exists (with, on a real filesystem,
all of its ancestors — `parents=True`). -/
def mkdirParents (dirs : List String) (d : String) : List String :=
  if d ∈ dirs then dirs else d :: dirs

/-- Parent directory of the sidecar file
`metadata_dir / f"{file_path}.meta"` relative to `download_dir`
(with `metadata_dir = download_dir / ".metadata"`). -/
def metaParent (file_path : String) : String :=
  let par := parentDir (file_path ++ ".meta")
  if par = "." then ".metadata" else ".metadata/" ++ par

/-- The conditional headers `download_file` builds from the loaded
metadata dict: `If-None-Match` from a truthy `etag`, `If-Modified-Since`
from a truthy `last_modified` (Python truthiness of a looked-up string:
present and non-empty). -/
def buildHeaders (meta : List (String × String)) : List (String × String) :=
  let h : List (String × String) :=
    match dictGet meta "etag" with
    | some v => if v ≠ "" then [("If-None-Match", v)] else []
    | none => []
  match dictGet meta "last_modified" with
  | some v => if v ≠ "" then h ++ [("If-Modified-Since", v)] else h
  | none => h

/-- Per-file result status strings returned by `download_file`. -/
inductive Outcome where
  | downloaded : Outcome
  | skipped : Outcome
  | failed : Outcome
deriving DecidableEq, Repr

/-- Result of one `download_file` call: the filesystem state after it,
its return value, and the request headers it sent. -/
structure DLResult where
  st : FsState
  outcome : Outcome
  reqHeaders : List (String × String)
deriving DecidableEq, Repr

/-- One `download_file(session, file_path, url, ...)` call.  `r = none`
models an exception raised by the HTTP client (transport error,
timeout); `resp.raise_for_status()` raises exactly when the delivered
status is `≥ 400`. -/
def download_file (st : FsState) (file_path : String) (r : Option HttpResp) : DLResult :=
  let local_file := file_path
  let temp_file := file_path ++ ".tmp"
  let st := { st with dirs := mkdirParents st.dirs (parentDir local_file) }
  let headers := buildHeaders (read_metadata (dictGet st.metas file_path))
  match r with
  | none =>
    ⟨{ st with temps := dictErase st.temps temp_file }, .failed, headers⟩
  | some resp =>
    if resp.status = 304 then
      ⟨{ st with temps := dictErase st.temps temp_file }, .skipped, headers⟩
    else if 400 ≤ resp.status then
      ⟨{ st with temps := dictErase st.temps temp_file }, .failed, headers⟩
    else
      let st := { st with temps := dictSet st.temps temp_file resp.body }
      let st := { st with
        files := dictSet st.files local_file resp.body,
        temps := dictErase st.temps temp_file }
      let st := { st with
        dirs := mkdirParents st.dirs (metaParent file_path),
        metas := dictSet st.metas file_path (saveContent resp.etag resp.last_modified) }
      ⟨st, .downloaded, headers⟩

/-- The outcome of one download as a function of the delivered response
alone. -/
def downloadOutcome (r : Option HttpResp) : Outcome :=
  match r with
  | none => .failed
  | some resp =>
    if resp.status = 304 then .skipped
    else if 400 ≤ resp.status then .failed
    else .downloaded

/-- `asyncio.gather` over `_download_with_limit` for every discovered
file: one `download_file` per `(path, url)` pair, results in input
order.  The per-file response is a function of the file pair.  The
semaphore bounds how many are in flight; it does not change which calls
happen, so the sequential model runs them in order. -/
def downloadAll (st : FsState) (files : List (String × String))
    (resp : String × String → Option HttpResp) : FsState × List Outcome :=
  match files with
  | [] => (st, [])
  | f :: rest =>
    let r := download_file st f.1 (resp f)
    let next := downloadAll r.st rest resp
    (next.1, r.outcome :: next.2)

/-! ## Run coordinator (tail of `async_main`) -/

/-- Observable milestones `async_main` emits after enumeration. -/
inductive Event where
  | foundCount : Nat → Event
  | noFiles : Event
  | downloading : Nat → Event
  | tally : Nat → Nat → Nat → Event
deriving DecidableEq, Repr

/-- The coordinator tail of `async_main`, from `total = len(files)` on:
report the count; with zero files report and return (process exits 0);
otherwise run the pipeline, print the tally, and `sys.exit(1)` iff any
download failed.  Returns the emitted events and the process exit
status. -/
def asyncMainTail (st : FsState) (files : List (String × String))
    (resp : String × String → Option HttpResp) : List Event × Nat :=
  let total := files.length
  if total = 0 then
    ([Event.foundCount total, Event.noFiles], 0)
  else
    let results := (downloadAll st files resp).2
    let downloaded := results.count .downloaded
    let skipped := results.count .skipped
    let failed := results.count .failed
    ([Event.foundCount total, Event.downloading total,
      Event.tally downloaded skipped failed],
     if 0 < failed then 1 else 0)

/-! ## Supporting lemmas -/

/-- The status string `download_file` returns is a function of the
delivered response alone: no state (hence no other file) influences it. -/
theorem download_file_outcome (st : FsState) (p : String) (r : Option HttpResp) :
    (download_file st p r).outcome = downloadOutcome r := by
  cases r with
  | none => rfl
  | some resp =>
    simp only [download_file, downloadOutcome]
    split <;> [rfl; skip]
    split <;> rfl

/-- Every `Outcome` is counted in exactly one of the three tallies. -/
theorem outcome_count_split (rs : List Outcome) :
    rs.count .downloaded + rs.count .skipped + rs.count .failed = rs.length := by
  induction rs with
  | nil => rfl
  | cons a rest ih =>
    cases a <;> simp [List.count_cons] <;> omega

/-- The result list of `downloadAll` maps each input to the outcome of
its own response. -/
theorem downloadAll_snd (files : List (String × String))
    (resp : String × String → Option HttpResp) :
    ∀ st : FsState, (downloadAll st files resp).2
      = files.map (fun f => downloadOutcome (resp f)) := by
  induction files with
  | nil => intro st; rfl
  | cons f rest ih =>
    intro st
    simp only [downloadAll, ih, download_file_outcome, List.map_cons]

/-! ## Claim theorems -/

/-- C1: for every input sequence of `(path, url)` pairs the pipeline
produces exactly one outcome per input — the list of outcomes is
pointwise the outcome of that file's own response, so no file's failure
affects any other file — and `downloaded + skipped + failed` equals the
total number of inputs after a full run. -/
theorem c1_one_outcome_per_file :
    ∀ (st : FsState) (files : List (String × String))
      (resp : String × String → Option HttpResp),
    (downloadAll st files resp).2 = files.map (fun f => downloadOutcome (resp f))
    ∧ (downloadAll st files resp).2.length = files.length
    ∧ (downloadAll st files resp).2.count .downloaded
      + (downloadAll st files resp).2.count .skipped
      + (downloadAll st files resp).2.count .failed = files.length := by
  intro st files resp
  have h := downloadAll_snd files resp st
  refine ⟨h, ?_, ?_⟩
  · rw [h, List.length_map]
  · rw [outcome_count_split, h, List.length_map]

/-- C2: the coordinator's exit status is non-zero iff the count of
`Failed` outcomes is positive; a run over zero files reports and exits
with success; and with at least one file the final tally event is
always emitted (the zero-file run emits the no-files report instead). -/
theorem c2_exit_status :
    (∀ (st : FsState) (files : List (String × String))
       (resp : String × String → Option HttpResp),
      ((asyncMainTail st files resp).2 ≠ 0 ↔
        0 < (downloadAll st files resp).2.count .failed)
      ∧ (Event.tally ((downloadAll st files resp).2.count .downloaded)
            ((downloadAll st files resp).2.count .skipped)
            ((downloadAll st files resp).2.count .failed)
          ∈ (asyncMainTail st files resp).1
        ∨ (files = [] ∧ Event.noFiles ∈ (asyncMainTail st files resp).1)))
    ∧ (∀ (st : FsState) (resp : String × String → Option HttpResp),
        asyncMainTail st [] resp = ([Event.foundCount 0, Event.noFiles], 0)) := by
  constructor
  · intro st files resp
    cases files with
    | nil => simp [asyncMainTail, downloadAll]
    | cons f rest =>
      constructor
      · simp only [asyncMainTail, List.length_cons]
        rw [if_neg (Nat.succ_ne_zero rest.length)]
        by_cases h : 0 < ((downloadAll st (f :: rest) resp).2.count .failed)
        · simp [h]
        · simp [h]
      · left
        simp only [asyncMainTail, List.length_cons]
        rw [if_neg (Nat.succ_ne_zero rest.length)]
        simp
  · intro st resp
    rfl

/-! ## Lemmas about the filesystem-state primitives -/

theorem mem_mkdirParents (dirs : List String) (d : String) :
    d ∈ mkdirParents dirs d := by
  simp only [mkdirParents]
  split
  · assumption
  · exact List.mem_cons_self d dirs

theorem mem_mkdirParents_mono {dirs : List String} {x : String} (d : String)
    (h : x ∈ dirs) : x ∈ mkdirParents dirs d := by
  simp only [mkdirParents]
  split
  · exact h
  · exact List.mem_cons_of_mem d h

theorem dictGet_dictErase (m : List (String × String)) (k : String) :
    dictGet (dictErase m k) k = none := by
  induction m with
  | nil => rfl
  | cons p rest ih =>
    by_cases h : p.1 = k
    · simp only [dictErase, List.filter_cons, h] at ih ⊢
      simp [ih, dictErase] at ih ⊢
      exact ih
    · simp only [dictErase, List.filter_cons] at ih ⊢
      simp [h, dictGet, List.find?] at ih ⊢
      try exact ih

/-- C7: the request built by `download_file` carries `If-None-Match`
exactly when the loaded metadata has a present non-empty `etag`, and
`If-Modified-Since` exactly when it has a present non-empty
`last_modified`; a record with no validators yields no conditional
headers; and the headers `download_file` sends are exactly
`buildHeaders` of the metadata loaded for that path. -/
theorem c7_conditional_headers :
    (∀ (m : List (String × String)) (e : String),
      ("If-None-Match", e) ∈ buildHeaders m ↔ dictGet m "etag" = some e ∧ e ≠ "")
    ∧ (∀ (m : List (String × String)) (l : String),
      ("If-Modified-Since", l) ∈ buildHeaders m
        ↔ dictGet m "last_modified" = some l ∧ l ≠ "")
    ∧ buildHeaders [] = []
    ∧ (∀ (st : FsState) (p : String) (r : Option HttpResp),
        (download_file st p r).reqHeaders
          = buildHeaders (read_metadata (dictGet st.metas p))) := by
  have hne : ("If-None-Match" : String) ≠ "If-Modified-Since" := by decide
  refine ⟨?_, ?_, rfl, ?_⟩
  · intro m e
    simp only [buildHeaders]
    cases he : dictGet m "etag" with
    | none =>
      cases hl : dictGet m "last_modified" with
      | none => simp
      | some v =>
        by_cases hv : v = "" <;> simp [hv, hne, Prod.ext_iff]
    | some w =>
      cases hl : dictGet m "last_modified" with
      | none =>
        by_cases hw : w = "" <;> simp [hw, Prod.ext_iff] <;> aesop
      | some v =>
        by_cases hw : w = "" <;> by_cases hv : v = "" <;>
          simp [hw, hv, hne, Prod.ext_iff] <;> aesop
  · intro m l
    simp only [buildHeaders]
    cases he : dictGet m "etag" with
    | none =>
      cases hl : dictGet m "last_modified" with
      | none => simp
      | some v =>
        by_cases hv : v = "" <;> simp [hv, Prod.ext_iff] <;> aesop
    | some w =>
      cases hl : dictGet m "last_modified" with
      | none =>
        by_cases hw : w = "" <;> simp [hw, hne.symm, Prod.ext_iff]
      | some v =>
        by_cases hw : w = "" <;> by_cases hv : v = "" <;>
          simp [hw, hv, hne.symm, Prod.ext_iff] <;> aesop
  · intro st p r
    cases r with
    | none => rfl
    | some resp =>
      simp only [download_file]
      split <;> [rfl; skip]
      split <;> rfl

/-- C9: `download_file` creates the destination's parent directory before
the HTTP request is issued, so it is present in the final state for
every possible response — including a transport error (`r = none`), a
304 skip, and an HTTP error — even though no file content is written in
those cases. -/
theorem c9_parent_dir_created :
    ∀ (st : FsState) (p : String) (r : Option HttpResp),
      parentDir p ∈ (download_file st p r).st.dirs := by
  intro st p r
  cases r with
  | none => exact mem_mkdirParents st.dirs (parentDir p)
  | some resp =>
    simp only [download_file]
    split
    · exact mem_mkdirParents st.dirs (parentDir p)
    · split
      · exact mem_mkdirParents st.dirs (parentDir p)
      · exact mem_mkdirParents_mono _ (mem_mkdirParents st.dirs (parentDir p))

/-- C6 (amended): on a 304 response `download_file` removes the leftover
temp artifact, returns `Skipped`, and leaves both the sidecar record and
the destination content untouched; on a `Failed` outcome the sidecar and
destination are likewise untouched; and the sidecar changes only for a
non-304 response whose status is below 400 (the statuses
`resp.raise_for_status()` lets through), in which case it is overwritten
with the response's validators and the outcome is `Downloaded`. -/
theorem c6_cache_record_frame :
    ∀ (st : FsState) (p : String) (r : Option HttpResp),
    (∀ resp : HttpResp, r = some resp → resp.status = 304 →
      (download_file st p r).outcome = .skipped
      ∧ (download_file st p r).st.metas = st.metas
      ∧ (download_file st p r).st.files = st.files
      ∧ dictGet (download_file st p r).st.temps (p ++ ".tmp") = none)
    ∧ ((download_file st p r).outcome = .failed →
      (download_file st p r).st.metas = st.metas
      ∧ (download_file st p r).st.files = st.files
      ∧ dictGet (download_file st p r).st.temps (p ++ ".tmp") = none)
    ∧ ((download_file st p r).st.metas ≠ st.metas →
      ∃ resp : HttpResp, r = some resp ∧ resp.status ≠ 304 ∧ resp.status < 400
        ∧ (download_file st p r).outcome = .downloaded
        ∧ (download_file st p r).st.metas
          = dictSet st.metas p (saveContent resp.etag resp.last_modified)) := by
  intro st p r
  cases r with
  | none =>
    refine ⟨fun resp h => ?_, fun _ => ?_, fun h => ?_⟩
    · cases h
    · exact ⟨rfl, rfl, dictGet_dictErase _ _⟩
    · exact absurd rfl h
  | some resp =>
    by_cases h304 : resp.status = 304
    · refine ⟨fun resp' he h => ?_, fun hf => ?_, fun hm => ?_⟩
      · simp [download_file, if_pos h304, dictGet_dictErase]
      · simp [download_file, if_pos h304] at hf
      · simp [download_file, if_pos h304] at hm
    · by_cases h400 : 400 ≤ resp.status
      · refine ⟨fun resp' he h => ?_, fun hf => ?_, fun hm => ?_⟩
        · cases he; exact absurd h h304
        · simp [download_file, if_neg h304, if_pos h400, dictGet_dictErase]
        · simp [download_file, if_neg h304, if_pos h400] at hm
      · refine ⟨fun resp' he h => ?_, fun hf => ?_, fun hm => ?_⟩
        · cases he; exact absurd h h304
        · simp [download_file, if_neg h304, if_neg h400] at hf
        · exact ⟨resp, rfl, h304, Nat.lt_of_not_le h400,
            by simp [download_file, if_neg h304, if_neg h400],
            by simp [download_file, if_neg h304, if_neg h400]⟩

/-- Witness for `c6_cache_record_frame`: a concrete 304 skip over a state
holding a leftover temp artifact and a prior sidecar record. -/
theorem c6_cache_record_frame_witness :
    (download_file ⟨[], [("a/b", "old")], [("a/b.tmp", "junk")], [("a/b", "m")]⟩
        "a/b" (some ⟨304, "", "E", "L"⟩)).outcome = Outcome.skipped
    ∧ (download_file ⟨[], [("a/b", "old")], [("a/b.tmp", "junk")], [("a/b", "m")]⟩
        "a/b" (some ⟨304, "", "E", "L"⟩)).st.metas = [("a/b", "m")]
    ∧ (download_file ⟨[], [("a/b", "old")], [("a/b.tmp", "junk")], [("a/b", "m")]⟩
        "a/b" (some ⟨304, "", "E", "L"⟩)).st.files = [("a/b", "old")]
    ∧ dictGet (download_file ⟨[], [("a/b", "old")], [("a/b.tmp", "junk")], [("a/b", "m")]⟩
        "a/b" (some ⟨304, "", "E", "L"⟩)).st.temps ("a/b" ++ ".tmp") = none := by
  exact (c6_cache_record_frame ⟨[], [("a/b", "old")], [("a/b.tmp", "junk")], [("a/b", "m")]⟩
    "a/b" (some ⟨304, "", "E", "L"⟩)).1 ⟨304, "", "E", "L"⟩ rfl rfl

/-- C6 as stated is refuted at a delivered status of 300 (Multiple
Choices): `resp.raise_for_status()` only raises for statuses ≥ 400, so
the code writes the destination, overwrites the sidecar record and
returns `Downloaded` for a response that is not a 2xx success. -/
theorem c6_counterexample :
    (download_file ⟨[], [], [], []⟩ "a" (some ⟨300, "body", "E", "L"⟩)).st.metas
      = [("a", saveContent "E" "L")]
    ∧ (download_file ⟨[], [], [], []⟩ "a" (some ⟨300, "body", "E", "L"⟩)).outcome
      = Outcome.downloaded
    ∧ ¬(200 ≤ 300 ∧ 300 ≤ 299) := by
  exact ⟨rfl, rfl, by decide⟩

/-! ## Lemmas for the listing fetcher -/

theorem dropWhile_dropWhile_self (p : Char → Bool) (l : List Char) :
    (l.dropWhile p).dropWhile p = l.dropWhile p := by
  induction l with
  | nil => rfl
  | cons a l ih =>
    by_cases h : p a
    · simp [List.dropWhile_cons, h, ih]
    · simp [List.dropWhile_cons, h]

theorem rstripSlash_idem (s : String) :
    rstripSlash (rstripSlash s) = rstripSlash s := by
  show String.mk ((((s.data.reverse.dropWhile (fun c => c = '/')).reverse).reverse.dropWhile
      (fun c => c = '/')).reverse) = _
  rw [List.reverse_reverse, dropWhile_dropWhile_self]
  rfl

theorem str_append_empty (s : String) : s ++ "" = s := by
  cases s with
  | mk d => exact congrArg String.mk (List.append_nil d)

/-- C4: for a listing entry whose raw name carries no trailing slash,
`_fetch_dir` discards it iff it is named `"."` or `".."`; otherwise it
emits `path = prefix + name` and `url = normalizedDirUrl + strippedUrl`
(a directory entry's new prefix being `path + "/"`); a relative URL
starting with `"./"` has exactly that prefix stripped before joining;
and every emitted directory prefix ends with `'/'`. -/
theorem c4_entry_normalization :
    ∀ (url pfx : String) (e : RawEntry),
    rstripSlash (e.name.getD "") = e.name.getD "" →
    ((e.name.getD "" = "." ∨ e.name.getD "" = "..") →
      processEntry (normUrl url) pfx e = .skip)
    ∧ (¬(e.name.getD "" = "." ∨ e.name.getD "" = "..") →
      processEntry (normUrl url) pfx e =
        (if e.is_dir then
          EntryResult.dir (normUrl url ++ stripDotSlash (e.url.getD ""))
            (pfx ++ e.name.getD "" ++ "/")
        else
          EntryResult.file (pfx ++ e.name.getD "")
            (normUrl url ++ stripDotSlash (e.url.getD ""))))
    ∧ (∀ r : String, stripDotSlash ("./" ++ r) = r)
    ∧ (∀ u p2 : String, processEntry (normUrl url) pfx e = .dir u p2 →
        p2.data.getLast? = some '/') := by
  intro url pfx e hn
  refine ⟨fun hd => ?_, fun hd => ?_, fun r => rfl, fun u p2 hp => ?_⟩
  · simp only [processEntry, hn]
    rw [if_pos hd]
  · simp only [processEntry, hn]
    rw [if_neg hd]
  · simp only [processEntry, hn] at hp
    by_cases hd : e.name.getD "" = "." ∨ e.name.getD "" = ".."
    · rw [if_pos hd] at hp; cases hp
    · rw [if_neg hd] at hp
      by_cases hdir : e.is_dir
      · simp only [hdir, if_true] at hp
        cases hp
        show ((pfx ++ e.name.getD "") ++ "/").data.getLast? = some '/'
        show ((pfx ++ e.name.getD "").data ++ ['/']).getLast? = some '/'
        exact List.getLast?_concat _
      · simp only [hdir, if_false] at hp
        cases hp

/-- Witness for `c4_entry_normalization`: a plain file entry in a
subdirectory listing. -/
theorem c4_entry_normalization_witness :
    processEntry (normUrl "http://h") "sub/" ⟨some "x.txt", some "./x.txt", false⟩
      = EntryResult.file "sub/x.txt" "http://h/x.txt" := by
  have h := (c4_entry_normalization "http://h" "sub/"
    ⟨some "x.txt", some "./x.txt", false⟩ (by decide)).2.1 (by decide)
  rw [h]
  rfl

/-- C10: `_fetch_dir` strips trailing `'/'` characters from the entry
name before the `"."`/`".."` check and before path construction
(processing an entry is identical to processing it with a pre-stripped
name, and a name of `"./"` is discarded like `"."`), while an entry with
a missing or empty `name` is not discarded: it yields a file whose path
is the bare accumulated prefix (or, for a directory, the prefix plus
`"/"`). -/
theorem c10_trailing_slash_empty_name :
    ∀ (nurl pfx : String) (e : RawEntry),
    processEntry nurl pfx e
      = processEntry nurl pfx ⟨some (rstripSlash (e.name.getD "")), e.url, e.is_dir⟩
    ∧ (∀ (u : Option String) (d : Bool),
      processEntry nurl pfx ⟨none, u, d⟩
        = (if d then EntryResult.dir (nurl ++ stripDotSlash (u.getD "")) (pfx ++ "/")
           else EntryResult.file pfx (nurl ++ stripDotSlash (u.getD "")))
      ∧ processEntry nurl pfx ⟨some "", u, d⟩
        = (if d then EntryResult.dir (nurl ++ stripDotSlash (u.getD "")) (pfx ++ "/")
           else EntryResult.file pfx (nurl ++ stripDotSlash (u.getD "")))
      ∧ processEntry nurl pfx ⟨some "./", u, d⟩ = EntryResult.skip) := by
  intro nurl pfx e
  constructor
  · simp only [processEntry, Option.getD_some, rstripSlash_idem]
  · intro u d
    refine ⟨?_, ?_, ?_⟩
    · simp only [processEntry, Option.getD_none]
      rw [if_neg (by decide : ¬(rstripSlash "" = "." ∨ rstripSlash "" = ".."))]
      cases d <;> simp [str_append_empty, show rstripSlash "" = "" from rfl]
    · simp only [processEntry, Option.getD_some]
      rw [if_neg (by decide : ¬(rstripSlash "" = "." ∨ rstripSlash "" = ".."))]
      cases d <;> simp [str_append_empty, show rstripSlash "" = "" from rfl]
    · simp only [processEntry, Option.getD_some]
      rw [if_pos (by decide : rstripSlash "./" = "." ∨ rstripSlash "./" = "..")]

/-! ## Lemmas for the tree crawler -/

/-- `processEntry` classified by the discard check and the `is_dir`
flag. -/
theorem processEntry_eq (nurl pfx : String) (e : RawEntry) :
    processEntry nurl pfx e =
      (if discarded e then EntryResult.skip
       else if e.is_dir then
         EntryResult.dir (nurl ++ stripDotSlash (e.url.getD ""))
           (pfx ++ rstripSlash (e.name.getD "") ++ "/")
       else
         EntryResult.file (pfx ++ rstripSlash (e.name.getD ""))
           (nurl ++ stripDotSlash (e.url.getD ""))) := by
  by_cases h : rstripSlash (e.name.getD "") = "." ∨ rstripSlash (e.name.getD "") = ".."
  · simp [processEntry, discarded, h]
  · simp [processEntry, discarded, h]

/-- The number of files the crawl collects equals the sum over every
successfully listed directory of its direct file entries. -/
theorem enumerate_count (t : RTree) :
    ∀ url pfx : String, (enumerate t url pfx).1.length = sumSuccess t := by
  refine @RTree.rec
    (fun t => ∀ url pfx : String, (enumerate t url pfx).1.length = sumSuccess t)
    (fun es => ∀ nurl pfx : String, (enumEntries nurl pfx es).1.length = sumEntries es)
    ?_ ?_ ?_ ?_ ?_ t
  · intro url pfx
    rfl
  · intro status url pfx
    rfl
  · intro status es ih url pfx
    by_cases h4 : 400 ≤ status
    · simp [enumerate, sumSuccess, if_pos h4]
    · simp only [enumerate, sumSuccess, if_neg h4]
      exact ih (normUrl url) pfx
  · intro nurl pfx
    rfl
  · intro e sub rest ih1 ih2 nurl pfx
    simp only [enumEntries, sumEntries, processEntry_eq]
    by_cases hd : discarded e
    · simp [hd, ih2]
    · by_cases hdir : e.is_dir
      · simp only [hd, hdir, if_false, if_true, Bool.false_eq_true]
        simp [List.length_append, ih1, ih2]
      · simp only [hd, hdir, if_false, Bool.false_eq_true]
        simp [ih2]
        omega

/-- A directory whose fetch ends in `_fetch_dir`'s `except` branch
enumerates to no files, no subdirectories, and one diagnostic. -/
theorem enumerate_fails_eq (t : RTree) (h : listingFails t = true) :
    ∀ url pfx : String, enumerate t url pfx = ([], [normUrl url]) := by
  intro url pfx
  cases t with
  | err => rfl
  | badBody status => rfl
  | resp status es =>
    have h4 : 400 ≤ status := by simpa [listingFails] using h
    simp [enumerate, if_pos h4]

/-- C5 (amended): a directory fetch for which `_fetch_dir`'s `except`
branch triggers — a transport error, a status ≥ 400 (the statuses
`resp.raise_for_status()` raises for), or an unparseable body —
contributes zero files and zero subdirectories and emits one
diagnostic; a failing subdirectory leaves its siblings' files
untouched; and the number of discovered files equals the sum, over
every successfully listed directory, of its direct file entries. -/
theorem c5_listing_failure_isolation :
    (∀ (t : RTree) (url pfx : String),
      (enumerate t url pfx).1.length = sumSuccess t)
    ∧ (∀ (t : RTree) (url pfx : String), listingFails t = true →
      enumerate t url pfx = ([], [normUrl url]))
    ∧ (∀ (nurl pfx n u : String) (t : RTree) (rest : REntries),
      listingFails t = true →
      (enumEntries nurl pfx (.cons ⟨some n, some u, true⟩ t rest)).1
        = (enumEntries nurl pfx rest).1) := by
  refine ⟨enumerate_count, fun t url pfx h => enumerate_fails_eq t h url pfx, ?_⟩
  intro nurl pfx n u t rest hfails
  simp only [enumEntries, processEntry_eq]
  by_cases hd : discarded ⟨some n, some u, true⟩
  · simp [hd]
  · simp [hd, enumerate_fails_eq t hfails]

/-- Witness for `c5_listing_failure_isolation`: a transport error
enumerates to one diagnostic and nothing else, and an HTTP 500
subdirectory leaves its sibling file untouched. -/
theorem c5_listing_failure_isolation_witness :
    enumerate RTree.err "http://h" "" = ([], ["http://h/"])
    ∧ (enumEntries "http://h/" ""
        (.cons ⟨some "bad", some "./bad/", true⟩ (RTree.resp 500 REntries.nil)
          (.cons ⟨some "a.txt", some "./a.txt", false⟩ RTree.err REntries.nil))).1
      = (enumEntries "http://h/" ""
        (.cons ⟨some "a.txt", some "./a.txt", false⟩ RTree.err REntries.nil)).1 := by
  constructor
  · exact c5_listing_failure_isolation.2.1 RTree.err "http://h" "" rfl
  · exact c5_listing_failure_isolation.2.2 "http://h/" "" "bad" "./bad/"
      (RTree.resp 500 REntries.nil) _ (by decide)

/-- C5 as stated is refuted at a delivered status of 300 (Multiple
Choices, which aiohttp does not auto-redirect): `_fetch_dir` fails only
through a transport error, `resp.raise_for_status()` (status ≥ 400), or
an unparseable body, so a 300 response with a parseable JSON array body
is a successful listing and contributes its entries — here one file —
although 300 is not a 2xx status. -/
theorem c5_counterexample :
    (enumerate (RTree.resp 300
        (REntries.cons ⟨some "a.txt", some "./a.txt", false⟩ RTree.err REntries.nil))
      "http://h" "").1 = [("a.txt", "http://h/a.txt")]
    ∧ ¬(200 ≤ 300 ∧ 300 ≤ 299) := by
  exact ⟨rfl, by decide⟩

/-! ## Lemmas for the metadata store -/

theorem splitOnCharList_ne_nil (c : Char) (L : List Char) :
    splitOnCharList c L ≠ [] := by
  induction L with
  | nil => simp [splitOnCharList]
  | cons a rest ih =>
    simp only [splitOnCharList]
    rcases hsp : splitOnCharList c rest with _ | ⟨x, t⟩
    · simp
    · by_cases hac : a = c <;> simp [hac]

theorem splitOnCharList_append (c : Char) (A B : List Char) (h : c ∉ A) :
    splitOnCharList c (A ++ c :: B) = A :: splitOnCharList c B := by
  induction A with
  | nil =>
    simp only [List.nil_append, splitOnCharList]
    cases hB : splitOnCharList c B with
    | nil => exact absurd hB (splitOnCharList_ne_nil c B)
    | cons x t => simp
  | cons a A ih =>
    have ha : a ≠ c := fun hac => h (hac ▸ List.mem_cons_self a A)
    have hA : c ∉ A := fun hm => h (List.mem_cons_of_mem a hm)
    show splitOnCharList c (a :: (A ++ c :: B)) = (a :: A) :: splitOnCharList c B
    simp only [splitOnCharList]
    rw [ih hA]
    simp [ha]

/-- The saved sidecar text splits into its two `key=value` lines plus the
final empty field, for newline-free validator values. -/
theorem splitLines_saveContent (e l : String)
    (he : '\n' ∉ e.data) (hl : '\n' ∉ l.data) :
    splitLines (saveContent e l)
      = [String.mk (['e', 't', 'a', 'g', '='] ++ e.data),
         String.mk (['l', 'a', 's', 't', '_', 'm', 'o', 'd', 'i', 'f', 'i', 'e', 'd', '=']
           ++ l.data),
         ""] := by
  have hA : ('\n' : Char) ∉ (['e', 't', 'a', 'g', '='] ++ e.data) := by
    intro hm
    rcases List.mem_append.mp hm with h1 | h2
    · revert h1; decide
    · exact he h2
  have hB : ('\n' : Char)
      ∉ (['l', 'a', 's', 't', '_', 'm', 'o', 'd', 'i', 'f', 'i', 'e', 'd', '='] ++ l.data) := by
    intro hm
    rcases List.mem_append.mp hm with h1 | h2
    · revert h1; decide
    · exact hl h2
  show (splitOnCharList '\n' (saveContent e l).data).map String.mk = _
  rw [show (saveContent e l).data
      = (['e', 't', 'a', 'g', '='] ++ e.data) ++ '\n' ::
        ((['l', 'a', 's', 't', '_', 'm', 'o', 'd', 'i', 'f', 'i', 'e', 'd', '='] ++ l.data)
          ++ '\n' :: []) from by
    show 'e' :: 't' :: 'a' :: 'g' :: '=' ::
        (((e.data ++ ('\n' :: ['l', 'a', 's', 't', '_', 'm', 'o', 'd', 'i', 'f', 'i', 'e', 'd', '=']))
          ++ l.data) ++ ['\n']) = _
    simp [List.append_assoc]]
  rw [splitOnCharList_append '\n' _ _ hA, splitOnCharList_append '\n' _ _ hB]
  rfl

theorem metaLine_etag (m : List (String × String)) (e : String) :
    metaLine m (String.mk (['e', 't', 'a', 'g', '='] ++ e.data))
      = if e ≠ "" ∧ e ≠ "null" then dictSet m "etag" e else m := rfl

theorem metaLine_lm (m : List (String × String)) (l : String) :
    metaLine m (String.mk (['l', 'a', 's', 't', '_', 'm', 'o', 'd', 'i', 'f', 'i', 'e', 'd', '=']
        ++ l.data))
      = if l ≠ "" ∧ l ≠ "null" then dictSet m "last_modified" l else m := rfl

theorem metaLine_empty (m : List (String × String)) : metaLine m "" = m := rfl

/-- C3 (amended): for validator strings that contain no newline and are
not the literal string `"null"`, `save_metadata` followed by
`read_metadata` on the same path recovers the record, with an empty
validator coming back absent — not as the empty string and not as the
string `"null"` (so the persisted record's empty validators behave as
absent, and no empty conditional header can arise from them). -/
theorem c3_roundtrip_amended (e l : String)
    (he : '\n' ∉ e.data) (hl : '\n' ∉ l.data)
    (hen : e ≠ "null") (hln : l ≠ "null") :
    dictGet (read_metadata (some (saveContent e l))) "etag"
      = (if e = "" then none else some e)
    ∧ dictGet (read_metadata (some (saveContent e l))) "last_modified"
      = (if l = "" then none else some l) := by
  have hr : read_metadata (some (saveContent e l))
      = metaLine (metaLine (metaLine []
            (String.mk (['e', 't', 'a', 'g', '='] ++ e.data)))
          (String.mk (['l', 'a', 's', 't', '_', 'm', 'o', 'd', 'i', 'f', 'i', 'e', 'd', '=']
            ++ l.data))) "" := by
    show (splitLines (saveContent e l)).foldl metaLine [] = _
    rw [splitLines_saveContent e l he hl]
    rfl
  rw [hr, metaLine_empty, metaLine_etag, metaLine_lm]
  rcases eq_or_ne e "" with he0 | he0 <;> rcases eq_or_ne l "" with hl0 | hl0
  · subst he0; subst hl0
    exact ⟨rfl, rfl⟩
  · subst he0
    rw [if_pos (⟨hl0, hln⟩ : l ≠ "" ∧ l ≠ "null"), if_neg hl0]
    exact ⟨rfl, rfl⟩
  · subst hl0
    rw [if_pos (⟨he0, hen⟩ : e ≠ "" ∧ e ≠ "null"), if_neg he0]
    exact ⟨rfl, rfl⟩
  · rw [if_pos (⟨he0, hen⟩ : e ≠ "" ∧ e ≠ "null"),
        if_pos (⟨hl0, hln⟩ : l ≠ "" ∧ l ≠ "null"), if_neg he0, if_neg hl0]
    exact ⟨rfl, rfl⟩

/-- Witness for `c3_roundtrip_amended`: a present etag and an empty
last-modified round-trip as present and absent respectively. -/
theorem c3_roundtrip_amended_witness :
    dictGet (read_metadata (some (saveContent "abc" ""))) "etag" = some "abc"
    ∧ dictGet (read_metadata (some (saveContent "abc" ""))) "last_modified" = none := by
  have h := c3_roundtrip_amended "abc" "" (by decide) (by decide) (by decide) (by decide)
  rcases h with ⟨h1, h2⟩
  rw [if_neg (by decide : ¬("abc" : String) = "")] at h1
  rw [if_pos rfl] at h2
  exact ⟨h1, h2⟩

/-- C3 as stated is refuted at the non-empty validator string `"null"`:
saving `etag = "null"` and loading it back yields an absent etag, not an
equivalent record (`read_metadata` drops any value equal to the literal
string `"null"`, a guard for records written as `etag=null`). -/
theorem c3_counterexample :
    dictGet (read_metadata (some (saveContent "null" "v2"))) "etag" = none
    ∧ ("null" : String) ≠ "" := by
  exact ⟨rfl, by decide⟩

end MirrorCaddy
